import Mathlib

/-!
Shallow embedding of the Vacalyser field-dependency trigger engine and its
default processors, translated from the Python sources:

* `trigger_engine.py` (repository root) — the variant whose `notify_change`
  iterates `nx.topological_sort(self.graph)` filtered to the affected set;
* `logic/trigger_engine.py` and `src/logic/trigger_engine.py` — the variants
  whose `notify_change` iterates directly over the Python set returned by
  `nx.descendants`;
* `logic/processors.py` and `src/processors/{salary,publication}.py` — the
  default processor callbacks.

Python dictionaries are modelled as insertion-ordered association lists,
`networkx.DiGraph` as a node list plus an edge list (both insertion ordered,
duplicates never added), and Python set iteration, whose order is
unspecified, is modelled by passing the iteration order as an explicit list
that theorems constrain to be a permutation of the set being iterated.
LLM calls made by processors are modelled by an `Option String` oracle
argument: `none` models the call raising an exception (which the processors
catch, log and swallow), `some r` models a reply with content `r`.
-/

/-! ## String helpers that the kernel can evaluate

`String.toLower`, `String.trim` and friends are implemented on byte
positions and do not reduce inside the kernel, so the Python string
operations used by the processors are re-implemented on character lists.
-/

/-- Python `str.lower()` (ASCII case folding, which is all the sources use). -/
def lowerStr (s : String) : String := ⟨s.data.map Char.toLower⟩

/-- Whitespace test used by `trimStr`, mirroring Python `str.strip()`. -/
def isWS (c : Char) : Bool := c == ' ' || c == '\t' || c == '\n' || c == '\r'

/-- Python `str.strip()`: drop leading and trailing whitespace. -/
def trimStr (s : String) : String :=
  ⟨((s.data.dropWhile isWS).reverse.dropWhile isWS).reverse⟩

/-- Python `sep.join(parts)`. -/
def joinStrs (sep : String) : List String → String
  | [] => ""
  | [x] => x
  | x :: xs => x ++ sep ++ joinStrs sep xs

/-- Helper for substring search: does the second list occur at the head? -/
def listStarts : List Char → List Char → Bool
  | _, [] => true
  | [], _ :: _ => false
  | a :: as, b :: bs => a == b && listStarts as bs

/-- Helper for substring search over character lists. -/
def listHasSub : List Char → List Char → Bool
  | hay, needle =>
    listStarts hay needle ||
      match hay with
      | [] => false
      | _ :: t => listHasSub t needle

/-- Python `needle in hay` on strings (substring containment). -/
def strHasSub (hay needle : String) : Bool := listHasSub hay.data needle.data

/-! ## Python values and the shared state dictionary -/

/-- Values stored in the shared wizard state. The processors only ever
read strings and (for `remote_work_policy`) lists of strings, matching the
`isinstance(raw_policy, (list, tuple))` test in the sources. -/
inductive PyVal where
  | str (s : String)
  | list (xs : List String)
deriving DecidableEq

/-- Python truthiness of a state value: empty strings and empty lists are
falsy, everything else is truthy. -/
def PyVal.truthy : PyVal → Bool
  | .str s => !(s == "")
  | .list xs => !xs.isEmpty

/-- Python `str(v)`. Lists render as in CPython, with `chr(39)` quotes. -/
def pyStr : PyVal → String
  | .str s => s
  | .list xs =>
    "[" ++ joinStrs ", "
      (xs.map (fun s => String.singleton (Char.ofNat 39) ++ s ++ String.singleton (Char.ofNat 39)))
      ++ "]"

/-- The shared mutable state: a Python dict modelled as an
insertion-ordered association list. -/
abbrev St : Type := List (String × PyVal)

/-- Python `state.get(k, d)`. -/
def pyGet (st : St) (k : String) (d : PyVal) : PyVal :=
  (List.lookup k (st : List (String × PyVal))).getD d

/-- Truthiness of Python `state.get(k)` (missing key gives `None`, falsy). -/
def pyTruthyGet (st : St) (k : String) : Bool :=
  match List.lookup k (st : List (String × PyVal)) with
  | some v => v.truthy
  | none => false

/-- Python `state[k] = v`: replace in place, else append (dict order). -/
def pySet : St → String → PyVal → St
  | [], k, v => [(k, v)]
  | (k₀, v₀) :: rest, k, v =>
    if k₀ == k then (k, v) :: rest else (k₀, v₀) :: pySet rest k v

/-- Python `a or b` on state values. -/
def pyOr (a b : PyVal) : PyVal := if a.truthy then a else b

/-! ## The dependency graph (`networkx.DiGraph` as used by the engine) -/

/-- Directed graph of field keys: insertion-ordered node and edge lists,
with membership checked before every insertion, as `networkx` does. -/
structure Graph where
  nodes : List String
  edges : List (String × String)
deriving DecidableEq

/-- `DiGraph.add_node`: no-op when the node exists. -/
def Graph.addNode (g : Graph) (k : String) : Graph :=
  if k ∈ g.nodes then g else { g with nodes := g.nodes ++ [k] }

/-- `DiGraph.add_edge`: inserts missing endpoints, no-op on an existing edge. -/
def Graph.addEdge (g : Graph) (u v : String) : Graph :=
  if (u, v) ∈ ((g.addNode u).addNode v).edges then (g.addNode u).addNode v
  else { (g.addNode u).addNode v with edges := ((g.addNode u).addNode v).edges ++ [(u, v)] }

/-- Membership test of one round of the set-based reachability closure:
a node qualifies when it is already reached or has a reached predecessor. -/
def Graph.closePred (g : Graph) (s : List String) : String → Bool :=
  fun v => decide (v ∈ s ∨ ∃ u ∈ s, (u, v) ∈ g.edges)

/-- One round of the set-based reachability closure behind
`nx.descendants`: keep every node already reached or directly reachable
from a reached node. -/
def Graph.closeStep (g : Graph) (s : List String) : List String :=
  g.nodes.filter (g.closePred s)

/-- Iterate `closeStep` a given number of times. -/
def Graph.iterClose (g : Graph) : Nat → List String → List String
  | 0, s => s
  | n + 1, s => g.iterClose n (g.closeStep s)

/-- `nx.descendants(g, k)`: all nodes reachable from `k` via one or more
edges, excluding `k` itself (even when `k` lies on a cycle). The closure is
iterated `g.nodes.length` times, which reaches the fixpoint. -/
def Graph.descendants (g : Graph) (k : String) : List String :=
  (g.iterClose g.nodes.length [k]).filter (fun v => decide (v ≠ k))

/-! ## The trigger engine -/

/-- `TriggerEngine`: the dependency graph plus the processor registry
(`self._processors`, a dict from field key to callback). The registry value
type is a parameter: the notification theorems instantiate it with state
transformers `σ → σ`, the graph-builder theorems with names of the Python
functions being bound. -/
structure TriggerEngine (π : Type) where
  graph : Graph
  procs : List (String × π)

/-- `TriggerEngine.__init__`: empty graph, empty registry. -/
def TriggerEngine.init (π : Type) : TriggerEngine π := ⟨⟨[], []⟩, []⟩

/-- `register_node`. -/
def TriggerEngine.registerNode (e : TriggerEngine π) (k : String) : TriggerEngine π :=
  { e with graph := e.graph.addNode k }

/-- `register_dependency`: register both endpoints, then add the edge. -/
def TriggerEngine.registerDependency (e : TriggerEngine π) (s t : String) :
    TriggerEngine π :=
  { e with graph := ((e.graph.addNode s).addNode t).addEdge s t }

/-- `register_dependencies`. -/
def TriggerEngine.registerDependencies (e : TriggerEngine π)
    (pairs : List (String × String)) : TriggerEngine π :=
  pairs.foldl (fun e p => e.registerDependency p.1 p.2) e

/-- Dict update for the processor registry: replace in place, else append. -/
def procsSet : List (String × π) → String → π → List (String × π)
  | [], k, f => [(k, f)]
  | (k₀, f₀) :: rest, k, f =>
    if k₀ == k then (k, f) :: rest else (k₀, f₀) :: procsSet rest k f

/-- `register_processor`. -/
def TriggerEngine.registerProcessor (e : TriggerEngine π) (k : String) (f : π) :
    TriggerEngine π :=
  { e with procs := procsSet e.procs k f }

/-- Body of the notification loop, shared by both `notify_change`
variants: look up the processor of `node`; when present apply it to the
state and record the invocation, otherwise skip silently. The second
component is the invocation trace, recording which processors ran. -/
def notifyStep (procs : List (String × (σ → σ))) (acc : σ × List String)
    (node : String) : σ × List String :=
  match List.lookup node procs with
  | some f => (f acc.1, acc.2 ++ [node])
  | none => acc

/-- `notify_change` of `logic/trigger_engine.py` and
`src/logic/trigger_engine.py`: return unless the key is a node, else run
the processors of the affected set, iterating the set directly. Python set
iteration order is unspecified, so the order is the argument `enum`;
theorems constrain `enum` to enumerate `descendants` of the changed key. -/
def TriggerEngine.notifyChange (e : TriggerEngine (σ → σ)) (enum : List String)
    (k : String) (st : σ) : σ × List String :=
  if k ∈ e.graph.nodes then enum.foldl (notifyStep e.procs) (st, []) else (st, [])

/-- Loop body of the topological variant: process `node` only when it lies
in the affected set. -/
def notifyTopoStep (procs : List (String × (σ → σ))) (affected : List String)
    (acc : σ × List String) (node : String) : σ × List String :=
  if node ∈ affected then notifyStep procs acc node else acc

/-- `notify_change` of the root `trigger_engine.py`: return unless the key
is a node or the affected set is empty, else walk
`nx.topological_sort(self.graph)` and process the nodes lying in the
affected set. The topological order produced by `networkx` is supplied as
`ts`; theorems constrain it to be a topological order of the graph. -/
def TriggerEngine.notifyChangeTopo (e : TriggerEngine (σ → σ)) (ts : List String)
    (k : String) (st : σ) : σ × List String :=
  if k ∈ e.graph.nodes then
    let affected := e.graph.descendants k
    if affected.isEmpty then (st, [])
    else ts.foldl (notifyTopoStep e.procs affected) (st, [])
  else (st, [])

/-! ## The default graph builders -/

/-- Names of the Python processor functions that `build_default_graph`
binds; the registry stores function references, modelled here by name. -/
inductive ProcName where
  | update_task_list
  | update_must_have_skills
  | update_nice_to_have_skills
  | update_salary_range
  | update_publication_channels
  | update_bonus_scheme
  | update_commission_structure
  | update_translation_required
deriving DecidableEq

/-- `_DEPENDENCY_PAIRS` of the root `trigger_engine.py`. -/
def dependencyPairsRoot : List (String × String) :=
  [("job_title", "task_list"),
   ("industry_experience", "task_list"),
   ("task_list", "must_have_skills"),
   ("must_have_skills", "nice_to_have_skills"),
   ("task_list", "salary_range"),
   ("must_have_skills", "salary_range"),
   ("parsed_data_raw", "salary_range"),
   ("remote_work_policy", "desired_publication_channels"),
   ("job_level", "bonus_scheme"),
   ("job_title", "commission_structure"),
   ("language_requirements", "translation_required")]

/-- `_DEPENDENCY_PAIRS` shared by `logic/trigger_engine.py` and
`src/logic/trigger_engine.py`. -/
def dependencyPairsLogic : List (String × String) :=
  [("job_title", "task_list"),
   ("job_title", "must_have_skills"),
   ("job_title", "commission_structure"),
   ("job_level", "bonus_scheme"),
   ("task_list", "salary_range"),
   ("must_have_skills", "salary_range"),
   ("must_have_skills", "nice_to_have_skills"),
   ("remote_work_policy", "desired_publication_channels"),
   ("industry_experience", "task_list"),
   ("parsed_data_raw", "salary_range")]

/-- `build_default_graph` of the root `trigger_engine.py`: registers the
dependency pairs and nothing else (no processors are bound there). -/
def buildDefaultGraphRoot (e : TriggerEngine π) : TriggerEngine π :=
  e.registerDependencies dependencyPairsRoot

/-- `register_all_processors` of `logic/processors.py`. -/
def registerAllProcessors (e : TriggerEngine ProcName) : TriggerEngine ProcName :=
  ((((((((e.registerProcessor "task_list" .update_task_list).registerProcessor
    "must_have_skills" .update_must_have_skills).registerProcessor
    "nice_to_have_skills" .update_nice_to_have_skills).registerProcessor
    "salary_range" .update_salary_range).registerProcessor
    "desired_publication_channels" .update_publication_channels).registerProcessor
    "bonus_scheme" .update_bonus_scheme).registerProcessor
    "commission_structure" .update_commission_structure).registerProcessor
    "translation_required" .update_translation_required)

/-- `build_default_graph` of `logic/trigger_engine.py`: register the
dependency pairs, then all eight processors. -/
def buildDefaultGraphLogic (e : TriggerEngine ProcName) : TriggerEngine ProcName :=
  registerAllProcessors (e.registerDependencies dependencyPairsLogic)

/-- `build_default_graph` of `src/logic/trigger_engine.py`: register the
dependency pairs, then seven processors (no translation processor). -/
def buildDefaultGraphSrc (e : TriggerEngine ProcName) : TriggerEngine ProcName :=
  (((((((e.registerDependencies dependencyPairsLogic).registerProcessor
    "task_list" .update_task_list).registerProcessor
    "must_have_skills" .update_must_have_skills).registerProcessor
    "nice_to_have_skills" .update_nice_to_have_skills).registerProcessor
    "salary_range" .update_salary_range).registerProcessor
    "desired_publication_channels" .update_publication_channels).registerProcessor
    "bonus_scheme" .update_bonus_scheme).registerProcessor
    "commission_structure" .update_commission_structure

/-! ## The default processors (`logic/processors.py`, `src/processors/`)

Each processor mutates the shared state. Processors that call the LLM
take an `Option String` oracle: `none` models the call raising (caught and
logged by the processor, leaving the state unchanged), `some r` models a
successful reply with content `r`.
-/

/-- `update_task_list` (`logic/processors.py`): skip when `task_list` is
already truthy; skip when neither `job_title` nor `role_description` gives
a role; otherwise store the stripped, non-empty suggestion. -/
def update_task_list (llm : Option String) (st : St) : St :=
  if pyTruthyGet st "task_list" then st
  else
    let role := pyOr (pyGet st "job_title" (.str "")) (pyGet st "role_description" (.str ""))
    if role.truthy then
      match llm with
      | none => st
      | some resp =>
        let tasksText := trimStr resp
        if tasksText == "" then st else pySet st "task_list" (.str tasksText)
    else st

/-- `update_must_have_skills` (`logic/processors.py`). -/
def update_must_have_skills (llm : Option String) (st : St) : St :=
  if pyTruthyGet st "must_have_skills" then st
  else if !pyTruthyGet st "job_title" && !pyTruthyGet st "task_list" then st
  else
    match llm with
    | none => st
    | some resp =>
      let skillsText := trimStr resp
      if skillsText == "" then st else pySet st "must_have_skills" (.str skillsText)

/-- `update_nice_to_have_skills` (`logic/processors.py`). -/
def update_nice_to_have_skills (llm : Option String) (st : St) : St :=
  if pyTruthyGet st "nice_to_have_skills" then st
  else
    let must := pyGet st "must_have_skills" (.str "")
    if must.truthy then
      match llm with
      | none => st
      | some resp =>
        let extraSkills := trimStr resp
        if extraSkills == "" then st else pySet st "nice_to_have_skills" (.str extraSkills)
    else st

/-- The skip test of `update_salary_range`: a truthy current value whose
stripped, lower-cased rendering is neither empty nor the placeholder
`competitive` counts as already set. -/
def salary_is_set (st : St) : Bool :=
  (pyGet st "salary_range" (.str "")).truthy &&
    !(["", "competitive"].contains (lowerStr (trimStr (pyStr (pyGet st "salary_range" (.str ""))))))

/-- `update_salary_range` (identical logic in `logic/processors.py` and the
OpenAI branch of `src/processors/salary.py`): return when a concrete range
is already set, otherwise store the stripped, non-empty estimate. -/
def update_salary_range (llm : Option String) (st : St) : St :=
  if salary_is_set st then st
  else
    match llm with
    | none => st
    | some resp =>
      let result := trimStr resp
      if result == "" then st else pySet st "salary_range" (.str result)

/-- The lower-cased rendering of `remote_work_policy` computed by
`update_publication_channels` in `logic/processors.py` (no stripping). -/
def policy_lower (st : St) : String :=
  match pyGet st "remote_work_policy" (.str "") with
  | .list xs => joinStrs " " (xs.map lowerStr)
  | .str s => lowerStr s

/-- `update_publication_channels` (`logic/processors.py`): write the
recommended channels whenever the policy is in the trigger set — note this
variant never checks the current value of the target field. -/
def update_publication_channels (st : St) : St :=
  if ["hybrid", "full remote"].contains (policy_lower st) then
    pySet st "desired_publication_channels" (.str "LinkedIn Remote Jobs; WeWorkRemotely")
  else st

/-- The stripped, lower-cased policy computed by the
`src/processors/publication.py` variant. -/
def policy_strip_lower (st : St) : String :=
  match pyGet st "remote_work_policy" (.str "") with
  | .list xs => joinStrs " " (xs.map (fun v => lowerStr (trimStr v)))
  | .str s => lowerStr (trimStr s)

/-- `update_publication_channels` (`src/processors/publication.py`): return
when the target field is already truthy, else write the recommended
channels when the stripped, lower-cased policy is in the trigger set. -/
def update_publication_channels_src (st : St) : St :=
  if pyTruthyGet st "desired_publication_channels" then st
  else if ["hybrid", "full remote"].contains (policy_strip_lower st) then
    pySet st "desired_publication_channels" (.str "LinkedIn Remote Jobs; WeWorkRemotely")
  else st

/-- `update_bonus_scheme` (`logic/processors.py`). -/
def update_bonus_scheme (st : St) : St :=
  if pyTruthyGet st "bonus_scheme" then st
  else
    let level := lowerStr (pyStr (pyGet st "job_level" (.str "")))
    if ["mid-level", "senior", "director", "c-level", "executive"].contains level then
      pySet st "bonus_scheme" (.str "Eligible for an annual performance bonus.")
    else st

/-- `update_commission_structure` (`logic/processors.py`). -/
def update_commission_structure (st : St) : St :=
  if pyTruthyGet st "commission_structure" then st
  else
    let title := lowerStr (pyStr (pyGet st "job_title" (.str "")))
    if ["sales", "business development", "account executive",
        "account manager"].any (fun term => strHasSub title term) then
      pySet st "commission_structure" (.str "Commission based on sales performance.")
    else st

/-! ## Concrete fixtures used by the claim theorems -/

/-- A processor that appends its own key to a list-valued state, as in the
ordering test scenario of the specification. -/
def appProc (k : String) : List String → List String := fun l => l ++ [k]

/-- Engine with edges `A→B`, `B→C` and appending processors on B and C. -/
def chainE : TriggerEngine (List String → List String) :=
  ((((TriggerEngine.init _).registerDependency "A" "B").registerDependency
    "B" "C").registerProcessor "B" (appProc "B")).registerProcessor "C" (appProc "C")

/-- Diamond engine `A→B`, `A→C`, `B→D`, `C→D` with appending processors on
B, C and D. -/
def diamondE : TriggerEngine (List String → List String) :=
  (((((((TriggerEngine.init _).registerDependency "A" "B").registerDependency
    "A" "C").registerDependency "B" "D").registerDependency
    "C" "D").registerProcessor "B" (appProc "B")).registerProcessor
    "C" (appProc "C")).registerProcessor "D" (appProc "D")

/-- Cyclic engine `A→B`, `B→A`, `B→C` with appending processors on all
three nodes. -/
def cycE : TriggerEngine (List String → List String) :=
  (((((TriggerEngine.init _).registerDependency "A" "B").registerDependency
    "B" "A").registerDependency "B" "C").registerProcessor
    "A" (appProc "A")).registerProcessor "B" (appProc "B")
    |>.registerProcessor "C" (appProc "C")

/-- Engine obtained by registering the edge `A→B` twice and binding an
appending processor on B. -/
def doubleRegE : TriggerEngine (List String → List String) :=
  ((((TriggerEngine.init (List String → List String)).registerDependency
    "A" "B").registerDependency "A" "B").registerProcessor "B" (appProc "B"))

/-! ## Helper lemmas about the embedding -/

/-- The invocation trace of the set-iteration loop is the iteration order
filtered to the keys that have a registered processor. -/
theorem notify_foldl_trace {σ : Type} (procs : List (String × (σ → σ))) :
    ∀ (enum : List String) (st : σ) (tr : List String),
      (enum.foldl (notifyStep procs) (st, tr)).2 =
        tr ++ enum.filter (fun n => (List.lookup n procs).isSome) := by
  intro enum
  induction enum with
  | nil => intro st tr; simp
  | cons n rest ih =>
    intro st tr
    cases h : List.lookup n procs with
    | none =>
      simp only [List.foldl_cons, notifyStep, h, List.filter_cons, Option.isSome_none,
        Bool.false_eq_true, if_false]
      exact ih st tr
    | some f =>
      simp only [List.foldl_cons, notifyStep, h, List.filter_cons, Option.isSome_some, if_true]
      rw [ih (f st) (tr ++ [n])]
      simp

/-- The state produced by the topological loop, when every affected key
carries an appending processor, is the iteration order filtered to the
affected set, appended to the initial list. -/
theorem topo_foldl_append (procs : List (String × (List String → List String)))
    (aff : List String)
    (hp : ∀ n ∈ aff, List.lookup n procs = some (appProc n)) :
    ∀ (ts l tr : List String),
      (ts.foldl (notifyTopoStep procs aff) (l, tr)).1 =
        l ++ ts.filter (fun n => decide (n ∈ aff)) := by
  intro ts
  induction ts with
  | nil => intro l tr; simp
  | cons n rest ih =>
    intro l tr
    by_cases h : n ∈ aff
    · rw [List.foldl_cons]
      have hstep : notifyTopoStep procs aff (l, tr) n = (l ++ [n], tr ++ [n]) := by
        simp [notifyTopoStep, h, notifyStep, hp n h, appProc]
      rw [hstep, ih (l ++ [n]) (tr ++ [n])]
      simp [List.filter_cons, h]
    · rw [List.foldl_cons]
      have hstep : notifyTopoStep procs aff (l, tr) n = (l, tr) := by
        simp [notifyTopoStep, h]
      rw [hstep, ih l tr]
      simp [List.filter_cons, h]

theorem addNode_of_mem {g : Graph} {k : String} (h : k ∈ g.nodes) : g.addNode k = g := by
  simp [Graph.addNode, h]

theorem mem_addNode_self (g : Graph) (k : String) : k ∈ (g.addNode k).nodes := by
  by_cases h : k ∈ g.nodes
  · simp [Graph.addNode, h]
  · simp [Graph.addNode, h]

theorem mem_addNode_of_mem {g : Graph} {j : String} (k : String) (h : j ∈ g.nodes) :
    j ∈ (g.addNode k).nodes := by
  unfold Graph.addNode
  split
  · exact h
  · exact List.mem_append.mpr (Or.inl h)

theorem addEdge_nodes (g : Graph) (u v : String) :
    (g.addEdge u v).nodes = ((g.addNode u).addNode v).nodes := by
  unfold Graph.addEdge
  split
  · rfl
  · rfl

theorem mem_addEdge_nodes {g : Graph} {j : String} (u v : String) (h : j ∈ g.nodes) :
    j ∈ (g.addEdge u v).nodes := by
  rw [addEdge_nodes]
  exact mem_addNode_of_mem v (mem_addNode_of_mem u h)

theorem mem_addEdge_self (g : Graph) (u v : String) :
    (u, v) ∈ (g.addEdge u v).edges := by
  unfold Graph.addEdge
  split
  · assumption
  · exact List.mem_append.mpr (Or.inr (by simp))

theorem addEdge_of_mem {g : Graph} {u v : String} (hu : u ∈ g.nodes) (hv : v ∈ g.nodes)
    (he : (u, v) ∈ g.edges) : g.addEdge u v = g := by
  simp only [Graph.addEdge, addNode_of_mem hu, addNode_of_mem hv, he, if_true]

/-- A set on which the closure step is stationary stays fixed forever. -/
theorem iterClose_fixed (g : Graph) (s : List String) (hfix : g.closeStep s = s) :
    ∀ n, g.iterClose n s = s := by
  intro n
  induction n with
  | zero => rfl
  | succ n ih =>
    show g.iterClose n (g.closeStep s) = s
    rw [hfix]
    exact ih

/-- Comparing two filters of the same list when one predicate implies the
other pointwise: the stronger filter is no longer, and equal lengths force
equal filters. -/
theorem filter_imp_length {α : Type} (p q : α → Bool) :
    ∀ l : List α, (∀ x ∈ l, p x = true → q x = true) →
      (l.filter p).length ≤ (l.filter q).length ∧
        ((l.filter q).length ≤ (l.filter p).length → l.filter p = l.filter q) := by
  intro l
  induction l with
  | nil => intro _; simp
  | cons a l ih =>
    intro h
    have ih' := ih (fun x hx hp => h x (List.mem_cons_of_mem a hx) hp)
    cases hp : p a
    · cases hq : q a
      · simpa [List.filter_cons, hp, hq] using ih'
      · simp only [List.filter_cons, hp, hq, if_true, Bool.false_eq_true, if_false,
          List.length_cons]
        refine ⟨Nat.le_trans ih'.1 (Nat.le_succ _), ?_⟩
        intro hle
        have := ih'.1
        omega
    · have hq : q a = true := h a (List.mem_cons_self a l) hp
      simp only [List.filter_cons, hp, hq, if_true, List.length_cons]
      refine ⟨Nat.succ_le_succ ih'.1, ?_⟩
      intro hle
      rw [ih'.2 (Nat.le_of_succ_le_succ hle)]

/-- Iterating the closure from a filter of the node list, with enough fuel
to reach the fixpoint, is insensitive to extra fuel: the iteration is
stationary once the number of rounds bounds the missing node count. -/
theorem iterClose_stable (g : Graph) :
    ∀ (fuel : Nat) (p : String → Bool),
      g.nodes.length ≤ (g.nodes.filter p).length + fuel →
      ∀ extra, g.iterClose (fuel + extra) (g.nodes.filter p) =
        g.iterClose fuel (g.nodes.filter p) := by
  intro fuel
  induction fuel with
  | zero =>
    intro p hb extra
    have hlen : (g.nodes.filter p).length = g.nodes.length :=
      Nat.le_antisymm (List.length_filter_le p g.nodes) (by omega)
    have hfp : g.nodes.filter p = g.nodes :=
      List.filter_eq_self.mpr (List.filter_length_eq_length.mp hlen)
    have hfix : g.closeStep g.nodes = g.nodes := by
      apply List.filter_eq_self.mpr
      intro v hv
      simp [Graph.closePred, hv]
    rw [hfp, iterClose_fixed g g.nodes hfix, iterClose_fixed g g.nodes hfix]
  | succ fuel ih =>
    intro p hb extra
    have hpq : ∀ x ∈ g.nodes, p x = true → g.closePred (g.nodes.filter p) x = true := by
      intro x hx hp
      simp only [Graph.closePred, decide_eq_true_eq]
      exact Or.inl (List.mem_filter.mpr ⟨hx, hp⟩)
    have hmain := filter_imp_length p (g.closePred (g.nodes.filter p)) g.nodes hpq
    by_cases hle : (g.nodes.filter (g.closePred (g.nodes.filter p))).length ≤
        (g.nodes.filter p).length
    · have heq : g.nodes.filter p = g.nodes.filter (g.closePred (g.nodes.filter p)) :=
        hmain.2 hle
      have hfix : g.closeStep (g.nodes.filter p) = g.nodes.filter p := by
        show g.nodes.filter (g.closePred (g.nodes.filter p)) = g.nodes.filter p
        exact heq.symm
      rw [iterClose_fixed g _ hfix, iterClose_fixed g _ hfix]
    · push_neg at hle
      have hb' : g.nodes.length ≤
          (g.nodes.filter (g.closePred (g.nodes.filter p))).length + fuel := by omega
      have harith : fuel + 1 + extra = (fuel + extra) + 1 := by omega
      rw [harith]
      show g.iterClose (fuel + extra) (g.nodes.filter (g.closePred (g.nodes.filter p))) =
        g.iterClose (fuel + 1) (g.nodes.filter p)
      rw [ih (g.closePred (g.nodes.filter p)) hb' extra]
      rfl

/-- Iterating the closure keeps the set a filter of the node list. -/
theorem iterClose_filter_shape (g : Graph) :
    ∀ (n : Nat) (p : String → Bool),
      ∃ q, g.iterClose n (g.nodes.filter p) = g.nodes.filter q := by
  intro n
  induction n with
  | zero => intro p; exact ⟨p, rfl⟩
  | succ n ih => intro p; exact ih (g.closePred (g.nodes.filter p))

/-- The descendant list of a registered node has no duplicates when the
node list has none: each node is visited at most once. -/
theorem descendants_nodup {g : Graph} (hnd : g.nodes.Nodup) {k : String}
    (hk : k ∈ g.nodes) : (g.descendants k).Nodup := by
  obtain ⟨m, hm⟩ : ∃ m, g.nodes.length = m + 1 :=
    ⟨g.nodes.length - 1, by have := List.length_pos_of_mem hk; omega⟩
  unfold Graph.descendants
  rw [hm]
  obtain ⟨q, hq⟩ := iterClose_filter_shape g m (g.closePred [k])
  show ((g.iterClose m (g.nodes.filter (g.closePred [k]))).filter _).Nodup
  rw [hq]
  exact List.Nodup.filter _ (List.Nodup.filter _ hnd)

/-- With fuel equal to the node count plus any surplus, the reachability
iteration from a registered node computes the same descendant set: the
fixpoint is reached within one round per node, cycles included. -/
theorem descendants_fuel_aux (g : Graph) (k : String) (hk : k ∈ g.nodes) (extra : Nat) :
    (g.iterClose (g.nodes.length + extra) [k]).filter (fun v => decide (v ≠ k)) =
      g.descendants k := by
  obtain ⟨m, hm⟩ : ∃ m, g.nodes.length = m + 1 :=
    ⟨g.nodes.length - 1, by have := List.length_pos_of_mem hk; omega⟩
  have hbound : g.nodes.length ≤ (g.nodes.filter (g.closePred [k])).length + m := by
    have hmem : k ∈ g.nodes.filter (g.closePred [k]) :=
      List.mem_filter.mpr ⟨hk, by simp [Graph.closePred]⟩
    have := List.length_pos_of_mem hmem
    omega
  have hstable := iterClose_stable g m (g.closePred [k]) hbound extra
  unfold Graph.descendants
  rw [hm]
  have harith : m + 1 + extra = (m + extra) + 1 := by omega
  rw [harith]
  show (g.iterClose (m + extra) (g.nodes.filter (g.closePred [k]))).filter _ =
    (g.iterClose m (g.nodes.filter (g.closePred [k]))).filter _
  rw [hstable]

/-! ## Claim theorems -/

/-- C1: for every engine whose graph contains the changed key, the
set-iteration `notify_change` of `logic/trigger_engine.py` invokes exactly
the processors registered for the proper descendants of the changed key,
each exactly once: the invocation trace counts a key once precisely when
it is a proper descendant with a registered processor, and zero times
otherwise — in particular the changed key itself is never invoked, since
`nx.descendants` excludes it. -/
theorem notifyChange_descendant_trace {σ : Type} (e : TriggerEngine (σ → σ))
    (hnd : e.graph.nodes.Nodup) (k : String) (hk : k ∈ e.graph.nodes)
    (enum : List String) (henum : enum.Perm (e.graph.descendants k))
    (st : σ) (x : String) :
    (e.notifyChange enum k st).2.count x =
      if x ∈ e.graph.descendants k ∧ (List.lookup x e.procs).isSome = true then 1
      else 0 := by
  have htr : (e.notifyChange enum k st).2 =
      enum.filter (fun n => (List.lookup n e.procs).isSome) := by
    unfold TriggerEngine.notifyChange
    rw [if_pos hk, notify_foldl_trace]
    simp
  rw [htr]
  by_cases hp : (List.lookup x e.procs).isSome = true
  · rw [List.count_filter (by simpa using hp), henum.count_eq x]
    by_cases hm : x ∈ e.graph.descendants k
    · rw [List.count_eq_one_of_mem (descendants_nodup hnd hk) hm, if_pos ⟨hm, hp⟩]
    · rw [List.count_eq_zero.mpr hm, if_neg (by tauto)]
  · have hx : x ∉ enum.filter (fun n => (List.lookup n e.procs).isSome) := by
      intro hmem
      exact hp (by simpa using (List.mem_filter.mp hmem).2)
    rw [List.count_eq_zero.mpr hx, if_neg (by tauto)]

/-- Witness for C1 on the chain `A→B`, `B→C` with processors on B and C:
notifying A runs both processors exactly once, and notifying B does not
run the processor of B itself. -/
theorem notifyChange_descendant_trace_witness :
    (chainE.notifyChange ["B", "C"] "A" ([] : List String)).2.count "B" = 1 ∧
    (chainE.notifyChange ["B", "C"] "A" ([] : List String)).2.count "C" = 1 ∧
    (chainE.notifyChange ["C"] "B" ([] : List String)).2.count "B" = 0 :=
  ⟨(notifyChange_descendant_trace chainE (by decide) "A" (by decide) ["B", "C"]
      (by decide) [] "B").trans (by decide),
   (notifyChange_descendant_trace chainE (by decide) "A" (by decide) ["B", "C"]
      (by decide) [] "C").trans (by decide),
   (notifyChange_descendant_trace chainE (by decide) "B" (by decide) ["C"]
      (by decide) [] "B").trans (by decide)⟩

/-- C3: when the changed key is not a node of the graph, both
`notify_change` variants return immediately: the state is unchanged, no
processor is invoked (the trace is empty), and no error is raised. -/
theorem notifyChange_unknown_key_noop {σ : Type} (e : TriggerEngine (σ → σ))
    (k : String) (hk : k ∉ e.graph.nodes) (enum ts : List String) (st : σ) :
    e.notifyChange enum k st = (st, []) ∧ e.notifyChangeTopo ts k st = (st, []) := by
  constructor
  · unfold TriggerEngine.notifyChange
    rw [if_neg hk]
  · unfold TriggerEngine.notifyChangeTopo
    rw [if_neg hk]

/-- Witness for C3: notifying an unknown key on a fresh engine is a no-op
in both variants. -/
theorem notifyChange_unknown_key_noop_witness :
    (TriggerEngine.init (Nat → Nat)).notifyChange [] "nonexistent" 0 = (0, []) ∧
    (TriggerEngine.init (Nat → Nat)).notifyChangeTopo [] "nonexistent" 0 = (0, []) :=
  notifyChange_unknown_key_noop (TriggerEngine.init (Nat → Nat)) "nonexistent"
    (by decide) [] [] 0

/-- Registering an edge a second time changes nothing: both endpoints and
the edge are already present afterwards. -/
theorem registerDependency_idem (π : Type) (e : TriggerEngine π) (s t : String) :
    (e.registerDependency s t).registerDependency s t = e.registerDependency s t := by
  have hs : s ∈ (((e.graph.addNode s).addNode t).addEdge s t).nodes :=
    mem_addEdge_nodes s t (mem_addNode_of_mem t (mem_addNode_self e.graph s))
  have ht : t ∈ (((e.graph.addNode s).addNode t).addEdge s t).nodes :=
    mem_addEdge_nodes s t (mem_addNode_self (e.graph.addNode s) t)
  have he : (s, t) ∈ (((e.graph.addNode s).addNode t).addEdge s t).edges :=
    mem_addEdge_self ((e.graph.addNode s).addNode t) s t
  show TriggerEngine.mk
      ((((((e.graph.addNode s).addNode t).addEdge s t).addNode s).addNode t).addEdge s t)
      e.procs =
    TriggerEngine.mk (((e.graph.addNode s).addNode t).addEdge s t) e.procs
  rw [addNode_of_mem hs, addNode_of_mem ht, addEdge_of_mem hs ht he]

/-- C4: `register_dependency` is idempotent — registering the same edge
twice yields exactly the engine obtained from registering it once — and on
the concrete doubled registration of `A→B` the graph holds the two nodes
and the single edge, and notifying A invokes the processor of B exactly
once. -/
theorem registerDependency_idempotent :
    (∀ (π : Type) (e : TriggerEngine π) (s t : String),
      (e.registerDependency s t).registerDependency s t = e.registerDependency s t) ∧
    doubleRegE.graph = ⟨["A", "B"], [("A", "B")]⟩ ∧
    doubleRegE.notifyChange ["B"] "A" ([] : List String) = (["B"], ["B"]) :=
  ⟨registerDependency_idem, by decide, by decide⟩

/-- C5: the descendant computation is set-based and reaches its fixpoint
within one closure round per node, for every finite graph including cyclic
ones — extra fuel never changes the result, which is the formal content of
termination of the Python reachability loop — and on the concrete cyclic
graph `A→B`, `B→A`, `B→C` notifying A terminates with a definite result
that runs the processors of B and C once each and never the processor of A
(the changed key is excluded even though it lies on a cycle). -/
theorem descendants_fuel_stable :
    (∀ (g : Graph) (k : String), k ∈ g.nodes → ∀ extra : Nat,
      (g.iterClose (g.nodes.length + extra) [k]).filter (fun v => decide (v ≠ k)) =
        g.descendants k) ∧
    ("A" ∉ cycE.graph.descendants "A" ∧
      cycE.notifyChange (cycE.graph.descendants "A") "A" ([] : List String) =
        (["B", "C"], ["B", "C"])) :=
  ⟨fun g k hk extra => descendants_fuel_aux g k hk extra, by decide, by decide⟩

/-- Witness for C5 at the cyclic graph with surplus fuel 2. -/
theorem descendants_fuel_stable_witness :
    (cycE.graph.iterClose (cycE.graph.nodes.length + 2) ["A"]).filter
      (fun v => decide (v ≠ "A")) = cycE.graph.descendants "A" :=
  descendants_fuel_stable.1 cycE.graph "A" (by decide) 2

/-- C10: `register_processor` changes only the processor registry — the
dependency graph is untouched — and for a key that is not a graph node a
subsequent `notify_change` on that key is a complete no-op: state
unchanged, empty invocation trace, so the registered callback never runs. -/
theorem registerProcessor_frame {σ : Type} (e : TriggerEngine (σ → σ)) (k : String)
    (f : σ → σ) :
    (e.registerProcessor k f).graph = e.graph ∧
      (k ∉ e.graph.nodes → ∀ (enum : List String) (st : σ),
        (e.registerProcessor k f).notifyChange enum k st = (st, [])) := by
  constructor
  · rfl
  · intro hk enum st
    unfold TriggerEngine.notifyChange
    rw [if_neg (show k ∉ (e.registerProcessor k f).graph.nodes from hk)]

/-- Witness for C10: registering a processor for a key absent from the
graph and then notifying that key does nothing. -/
theorem registerProcessor_frame_witness :
    ((TriggerEngine.init (Nat → Nat)).registerProcessor "X" id).notifyChange
      ["X"] "X" 7 = (7, []) :=
  (registerProcessor_frame (TriggerEngine.init (Nat → Nat)) "X" id).2
    (by decide) ["X"] 7

/-- C2 counterexample: the set-iteration `notify_change` of
`logic/trigger_engine.py` iterates the affected set in whatever order the
Python set yields. On the diamond `A→B`, `A→C`, `B→D`, `C→D` the order
`D, B, C` is a legal enumeration of the affected set, and under it the
state list ends up `D, B, C`: B does not precede D, so the claimed
topological ordering fails for this implementation. -/
theorem notifyChange_set_order_cex :
    (["D", "B", "C"] : List String).Perm (diamondE.graph.descendants "A") ∧
    (diamondE.notifyChange ["D", "B", "C"] "A" ([] : List String)).1 = ["D", "B", "C"] ∧
    ¬ List.Sublist ["B", "D"]
      ((diamondE.notifyChange ["D", "B", "C"] "A" ([] : List String)).1) := by
  refine ⟨by decide, by decide, ?_⟩
  intro h
  have : (diamondE.notifyChange ["D", "B", "C"] "A" ([] : List String)).1 =
      ["D", "B", "C"] := by decide
  rw [this] at h
  exact absurd h (by decide)

/-- C2 (amended): the topological-sort `notify_change` of the root
`trigger_engine.py` does satisfy the ordering property: on the diamond
`A→B`, `A→C`, `B→D`, `C→D` with appending processors on B, C and D, for
every topological order of the graph the resulting state list has both B
and C before D. -/
theorem notifyChangeTopo_diamond_order (ts : List String)
    (_hperm : ts.Perm diamondE.graph.nodes)
    (hedge : ∀ p ∈ diamondE.graph.edges, List.Sublist [p.1, p.2] ts) :
    List.Sublist ["B", "D"] ((diamondE.notifyChangeTopo ts "A" ([] : List String)).1) ∧
    List.Sublist ["C", "D"] ((diamondE.notifyChangeTopo ts "A" ([] : List String)).1) := by
  have hres : (diamondE.notifyChangeTopo ts "A" ([] : List String)).1 =
      ts.filter (fun n => decide (n ∈ (["B", "C", "D"] : List String))) := by
    have h1 : diamondE.notifyChangeTopo ts "A" ([] : List String) =
        ts.foldl (notifyTopoStep diamondE.procs ["B", "C", "D"]) ([], []) := rfl
    rw [h1, topo_foldl_append diamondE.procs ["B", "C", "D"] ?_ ts [] []]
    · simp
    · intro n hn
      simp only [List.mem_cons, List.not_mem_nil, or_false] at hn
      rcases hn with h | h | h <;> subst h <;> rfl
  constructor
  · rw [hres]
    have hBD := hedge ("B", "D") (by decide)
    have hsub := List.Sublist.filter
      (fun n => decide (n ∈ (["B", "C", "D"] : List String))) hBD
    have heval : (["B", "D"] : List String).filter
        (fun n => decide (n ∈ (["B", "C", "D"] : List String))) = ["B", "D"] := by decide
    rwa [heval] at hsub
  · rw [hres]
    have hCD := hedge ("C", "D") (by decide)
    have hsub := List.Sublist.filter
      (fun n => decide (n ∈ (["B", "C", "D"] : List String))) hCD
    have heval : (["C", "D"] : List String).filter
        (fun n => decide (n ∈ (["B", "C", "D"] : List String))) = ["C", "D"] := by decide
    rwa [heval] at hsub

/-- Witness for the amended C2 at the topological order `A, B, C, D`. -/
theorem notifyChangeTopo_diamond_order_witness :
    List.Sublist ["B", "D"]
      ((diamondE.notifyChangeTopo ["A", "B", "C", "D"] "A" ([] : List String)).1) ∧
    List.Sublist ["C", "D"]
      ((diamondE.notifyChangeTopo ["A", "B", "C", "D"] "A" ([] : List String)).1) :=
  notifyChangeTopo_diamond_order ["A", "B", "C", "D"] (by decide) (by decide)

set_option maxRecDepth 4096 in
/-- C6 counterexample: no `build_default_graph` in the sources both
registers the `language_requirements → translation_required` edge and
binds processors. The root variant binds no processor at all — its
registry stays empty, so even `task_list` has none — and the two
`logic` variants never register the language edge. -/
theorem buildDefaultGraph_claim_cex :
    (buildDefaultGraphRoot (TriggerEngine.init ProcName)).procs = [] ∧
    (List.lookup "task_list"
      (buildDefaultGraphRoot (TriggerEngine.init ProcName)).procs) = none ∧
    ("language_requirements", "translation_required") ∉
      (buildDefaultGraphLogic (TriggerEngine.init ProcName)).graph.edges ∧
    ("language_requirements", "translation_required") ∉
      (buildDefaultGraphSrc (TriggerEngine.init ProcName)).graph.edges := by
  decide

set_option maxRecDepth 4096 in
/-- C6 (amended): the root `build_default_graph` registers all five listed
edges, including `language_requirements → translation_required`, but binds
no processors; the `logic/` and `src/logic/` variants register the listed
edges except the language edge and bind a recomputation processor to the
target field of every edge they register. -/
theorem buildDefaultGraph_edges_processors :
    (∀ p ∈ [("job_title", "task_list"), ("task_list", "salary_range"),
        ("must_have_skills", "salary_range"),
        ("remote_work_policy", "desired_publication_channels"),
        ("language_requirements", "translation_required")],
      p ∈ (buildDefaultGraphRoot (TriggerEngine.init ProcName)).graph.edges) ∧
    (∀ p ∈ [("job_title", "task_list"), ("task_list", "salary_range"),
        ("must_have_skills", "salary_range"),
        ("remote_work_policy", "desired_publication_channels")],
      p ∈ (buildDefaultGraphLogic (TriggerEngine.init ProcName)).graph.edges ∧
      p ∈ (buildDefaultGraphSrc (TriggerEngine.init ProcName)).graph.edges) ∧
    (∀ p ∈ (buildDefaultGraphLogic (TriggerEngine.init ProcName)).graph.edges,
      (List.lookup p.2
        (buildDefaultGraphLogic (TriggerEngine.init ProcName)).procs).isSome = true) ∧
    (∀ p ∈ (buildDefaultGraphSrc (TriggerEngine.init ProcName)).graph.edges,
      (List.lookup p.2
        (buildDefaultGraphSrc (TriggerEngine.init ProcName)).procs).isSome = true) := by
  decide

/-- Lower-casing preserves emptiness of a string. -/
theorem lowerStr_eq_empty {s : String} : lowerStr s = "" ↔ s = "" := by
  constructor
  · intro h
    have hd : s.data.map Char.toLower = [] := by
      have := congrArg String.data h
      simpa [lowerStr] using this
    have hnil : s.data = [] := List.map_eq_nil_iff.mp hd
    rw [String.ext_iff]
    simpa using hnil
  · intro h
    subst h
    rfl

/-- The empty string strips to itself. -/
theorem trimStr_empty : trimStr "" = "" := rfl

/-- C7 counterexample: `update_publication_channels` in
`logic/processors.py` does not uphold the no-clobber convention — with the
policy `hybrid` it overwrites a `desired_publication_channels` value the
user already filled in. -/
theorem update_publication_channels_clobbers_cex :
    pyTruthyGet [("remote_work_policy", PyVal.str "hybrid"),
        ("desired_publication_channels", PyVal.str "StepStone")]
      "desired_publication_channels" = true ∧
    update_publication_channels [("remote_work_policy", PyVal.str "hybrid"),
        ("desired_publication_channels", PyVal.str "StepStone")] =
      [("remote_work_policy", PyVal.str "hybrid"),
       ("desired_publication_channels",
        PyVal.str "LinkedIn Remote Jobs; WeWorkRemotely")] := by
  refine ⟨by decide, by decide⟩

/-- C7 (amended): the processors `update_task_list`,
`update_must_have_skills`, `update_nice_to_have_skills`,
`update_bonus_scheme` and `update_commission_structure` of
`logic/processors.py`, and `update_publication_channels` of
`src/processors/publication.py`, return early and leave the state
untouched whenever their target field already holds a truthy value; the
`logic/processors.py` `update_publication_channels`, however, writes the
recommended channels whenever the lower-cased policy is `hybrid` or
`full remote`, regardless of any existing target value. -/
theorem processors_no_clobber :
    (∀ (o : Option String) (st : St), pyTruthyGet st "task_list" = true →
      update_task_list o st = st) ∧
    (∀ (o : Option String) (st : St), pyTruthyGet st "must_have_skills" = true →
      update_must_have_skills o st = st) ∧
    (∀ (o : Option String) (st : St), pyTruthyGet st "nice_to_have_skills" = true →
      update_nice_to_have_skills o st = st) ∧
    (∀ st : St, pyTruthyGet st "bonus_scheme" = true → update_bonus_scheme st = st) ∧
    (∀ st : St, pyTruthyGet st "commission_structure" = true →
      update_commission_structure st = st) ∧
    (∀ st : St, pyTruthyGet st "desired_publication_channels" = true →
      update_publication_channels_src st = st) ∧
    (∀ st : St,
      (["hybrid", "full remote"] : List String).contains (policy_lower st) = true →
      update_publication_channels st =
        pySet st "desired_publication_channels"
          (PyVal.str "LinkedIn Remote Jobs; WeWorkRemotely")) := by
  refine ⟨?_, ?_, ?_, ?_, ?_, ?_, ?_⟩
  · intro o st h
    simp [update_task_list, h]
  · intro o st h
    simp [update_must_have_skills, h]
  · intro o st h
    simp [update_nice_to_have_skills, h]
  · intro st h
    simp [update_bonus_scheme, h]
  · intro st h
    simp [update_commission_structure, h]
  · intro st h
    simp [update_publication_channels_src, h]
  · intro st h
    unfold update_publication_channels
    rw [if_pos h]

/-- Witness for the amended C7 on concrete filled-in states, and the
clobbering fact at a filled-in state with a `full remote` policy. -/
theorem processors_no_clobber_witness :
    update_task_list (some "tasks") [("task_list", PyVal.str "t")] =
      [("task_list", PyVal.str "t")] ∧
    update_must_have_skills (some "s") [("must_have_skills", PyVal.str "m")] =
      [("must_have_skills", PyVal.str "m")] ∧
    update_nice_to_have_skills (some "s") [("nice_to_have_skills", PyVal.str "n")] =
      [("nice_to_have_skills", PyVal.str "n")] ∧
    update_bonus_scheme [("bonus_scheme", PyVal.str "b")] =
      [("bonus_scheme", PyVal.str "b")] ∧
    update_commission_structure [("commission_structure", PyVal.str "c")] =
      [("commission_structure", PyVal.str "c")] ∧
    update_publication_channels_src [("desired_publication_channels", PyVal.str "p")] =
      [("desired_publication_channels", PyVal.str "p")] ∧
    update_publication_channels [("remote_work_policy", PyVal.str "Full Remote"),
        ("desired_publication_channels", PyVal.str "StepStone")] =
      pySet [("remote_work_policy", PyVal.str "Full Remote"),
        ("desired_publication_channels", PyVal.str "StepStone")]
        "desired_publication_channels"
        (PyVal.str "LinkedIn Remote Jobs; WeWorkRemotely") :=
  ⟨processors_no_clobber.1 (some "tasks") _ (by decide),
   processors_no_clobber.2.1 (some "s") _ (by decide),
   processors_no_clobber.2.2.1 (some "s") _ (by decide),
   processors_no_clobber.2.2.2.1 _ (by decide),
   processors_no_clobber.2.2.2.2.1 _ (by decide),
   processors_no_clobber.2.2.2.2.2.1 _ (by decide),
   processors_no_clobber.2.2.2.2.2.2 _ (by decide)⟩

/-- C8: `update_salary_range` treats `competitive` (case-insensitively,
after stripping) as a placeholder. When the current value is set — truthy
and, stripped and lower-cased, neither empty nor `competitive` — the state
is returned unchanged; otherwise the processor proceeds and, when the
estimation call yields a reply whose stripped content is non-empty, it
overwrites `salary_range` with that stripped estimate. For a string-valued
field, being set is exactly holding a value that strips to a non-empty
string other than `competitive`. -/
theorem update_salary_range_competitive_spec (st : St) (o : Option String) :
    (salary_is_set st = true → update_salary_range o st = st) ∧
    (salary_is_set st = false → ∀ r : String, o = some r → ¬ trimStr r = "" →
      update_salary_range o st = pySet st "salary_range" (PyVal.str (trimStr r))) ∧
    (∀ s : String, salary_is_set [("salary_range", PyVal.str s)] = true ↔
      ¬ (trimStr s = "" ∨ lowerStr (trimStr s) = "competitive")) := by
  refine ⟨?_, ?_, ?_⟩
  · intro h
    simp [update_salary_range, h]
  · intro h r hr hne
    subst hr
    simp [update_salary_range, h, hne]
  · intro s
    have hred : salary_is_set [("salary_range", PyVal.str s)] =
        ((!(s == "")) &&
          !((["", "competitive"] : List String).contains (lowerStr (trimStr s)))) := rfl
    have himp : s = "" → trimStr s = "" := fun hs => by subst hs; rfl
    rw [hred]
    constructor
    · intro h habs
      obtain ⟨hs, hc⟩ : (!(s == "")) = true ∧
          (!((["", "competitive"] : List String).contains (lowerStr (trimStr s)))) = true := by
        simpa using h
      have hcf : (["", "competitive"] : List String).contains (lowerStr (trimStr s)) =
          false := by simpa using hc
      have hnm : lowerStr (trimStr s) ∉ (["", "competitive"] : List String) := by
        intro hmem
        have htrue : (["", "competitive"] : List String).contains (lowerStr (trimStr s)) =
            true := List.elem_iff.mpr hmem
        rw [htrue] at hcf
        exact Bool.true_eq_false.mp hcf
      rcases habs with h1 | h1
      · refine hnm ?_
        rw [show lowerStr (trimStr s) = "" from by rw [h1]; rfl]
        simp
      · refine hnm ?_
        rw [h1]
        simp
    · intro h
      push_neg at h
      obtain ⟨h1, h2⟩ := h
      have hnm : lowerStr (trimStr s) ∉ (["", "competitive"] : List String) := by
        intro hmem
        simp only [List.mem_cons, List.not_mem_nil, or_false] at hmem
        rcases hmem with hmem | hmem
        · exact h1 (lowerStr_eq_empty.mp hmem)
        · exact h2 hmem
      have hs : ¬ s = "" := fun hs => h1 (himp hs)
      have hcf : (["", "competitive"] : List String).contains (lowerStr (trimStr s)) =
          false := by
        cases hb : (["", "competitive"] : List String).contains (lowerStr (trimStr s))
        · rfl
        · exact absurd (List.elem_iff.mp hb) hnm
      have hbool : (!(s == "")) = true := by simpa using hs
      rw [hbool, hcf]
      rfl

/-- Witness for C8: an already-set concrete range is kept; an empty or
`competitive` range is overwritten by the stripped estimate; a concrete
range string counts as set. -/
theorem update_salary_range_competitive_spec_witness :
    update_salary_range (some "ignored") [("salary_range", PyVal.str "55000 - 65000 EUR")] =
      [("salary_range", PyVal.str "55000 - 65000 EUR")] ∧
    update_salary_range (some " 40000 - 60000 EUR ")
        [("salary_range", PyVal.str " Competitive ")] =
      pySet [("salary_range", PyVal.str " Competitive ")] "salary_range"
        (PyVal.str (trimStr " 40000 - 60000 EUR ")) ∧
    salary_is_set [("salary_range", PyVal.str "55000 EUR")] = true :=
  ⟨(update_salary_range_competitive_spec
      [("salary_range", PyVal.str "55000 - 65000 EUR")] (some "ignored")).1 (by decide),
   (update_salary_range_competitive_spec
      [("salary_range", PyVal.str " Competitive ")] (some " 40000 - 60000 EUR ")).2.1
      (by decide) " 40000 - 60000 EUR " rfl (by decide),
   ((update_salary_range_competitive_spec
      [("salary_range", PyVal.str "55000 EUR")] none).2.2 "55000 EUR").mpr (by decide)⟩

/-- C9: `update_publication_channels` writes the non-empty recommended
channel string exactly when the lower-cased policy lies in the trigger set
`hybrid, full remote`: unconditionally so for the `logic/processors.py`
variant, and, for the `src/processors/publication.py` variant, whenever the
target field is not already truthy (that variant also strips the policy).
On the concrete states of the specification, policy `Hybrid` with empty
channels makes the field non-empty in both variants, and policy `On-site`
leaves the state entirely unchanged in both variants. -/
theorem update_publication_channels_trigger_spec :
    (∀ st : St,
      ((["hybrid", "full remote"] : List String).contains (policy_lower st) = true →
        update_publication_channels st =
          pySet st "desired_publication_channels"
            (PyVal.str "LinkedIn Remote Jobs; WeWorkRemotely")) ∧
      ((["hybrid", "full remote"] : List String).contains (policy_lower st) = false →
        update_publication_channels st = st)) ∧
    (∀ st : St, pyTruthyGet st "desired_publication_channels" = false →
      ((["hybrid", "full remote"] : List String).contains (policy_strip_lower st) = true →
        update_publication_channels_src st =
          pySet st "desired_publication_channels"
            (PyVal.str "LinkedIn Remote Jobs; WeWorkRemotely")) ∧
      ((["hybrid", "full remote"] : List String).contains (policy_strip_lower st) = false →
        update_publication_channels_src st = st)) ∧
    (pyTruthyGet (update_publication_channels
        [("remote_work_policy", PyVal.str "Hybrid"),
         ("desired_publication_channels", PyVal.str "")])
      "desired_publication_channels" = true ∧
     pyTruthyGet (update_publication_channels_src
        [("remote_work_policy", PyVal.str "Hybrid"),
         ("desired_publication_channels", PyVal.str "")])
      "desired_publication_channels" = true) ∧
    (update_publication_channels
        [("remote_work_policy", PyVal.str "On-site"),
         ("desired_publication_channels", PyVal.str "")] =
      [("remote_work_policy", PyVal.str "On-site"),
       ("desired_publication_channels", PyVal.str "")] ∧
     update_publication_channels_src
        [("remote_work_policy", PyVal.str "On-site"),
         ("desired_publication_channels", PyVal.str "")] =
      [("remote_work_policy", PyVal.str "On-site"),
       ("desired_publication_channels", PyVal.str "")]) := by
  refine ⟨?_, ?_, ⟨by decide, by decide⟩, by decide, by decide⟩
  · intro st
    constructor
    · intro h
      unfold update_publication_channels
      rw [if_pos h]
    · intro h
      unfold update_publication_channels
      rw [if_neg (by intro hc; rw [hc] at h; exact Bool.true_eq_false.mp h)]
  · intro st hch
    constructor
    · intro h
      unfold update_publication_channels_src
      rw [if_neg (by simp [hch]), if_pos h]
    · intro h
      unfold update_publication_channels_src
      rw [if_neg (by simp [hch]),
        if_neg (by intro hc; rw [hc] at h; exact Bool.true_eq_false.mp h)]

/-- Witness for C9 on the concrete policies `Hybrid` and `On-site`. -/
theorem update_publication_channels_trigger_spec_witness :
    update_publication_channels
        [("remote_work_policy", PyVal.str "Hybrid"),
         ("desired_publication_channels", PyVal.str "")] =
      pySet [("remote_work_policy", PyVal.str "Hybrid"),
         ("desired_publication_channels", PyVal.str "")]
        "desired_publication_channels"
        (PyVal.str "LinkedIn Remote Jobs; WeWorkRemotely") ∧
    update_publication_channels [("remote_work_policy", PyVal.str "On-site")] =
      [("remote_work_policy", PyVal.str "On-site")] ∧
    update_publication_channels_src
        [("remote_work_policy", PyVal.str "Hybrid"),
         ("desired_publication_channels", PyVal.str "")] =
      pySet [("remote_work_policy", PyVal.str "Hybrid"),
         ("desired_publication_channels", PyVal.str "")]
        "desired_publication_channels"
        (PyVal.str "LinkedIn Remote Jobs; WeWorkRemotely") :=
  ⟨(update_publication_channels_trigger_spec.1 _).1 (by decide),
   (update_publication_channels_trigger_spec.1 _).2 (by decide),
   (update_publication_channels_trigger_spec.2.1 _ (by decide)).1 (by decide)⟩
